import Mathlib

/-!
Verification of the StarForge star-chart generator.

This file gives a shallow embedding of the parts of the repository that the
claims under scrutiny concern:

* `renderer.py`: the `Config` dataclass, the chart geometry set up by
  `SVGChart.__init__`, the two point distortions
  (`tangential_edge_bend`, `simulate_globe_projection`), the
  connectivity-aware clipper of `_draw_constellations`, the star-glyph
  emission of `_draw_stars` and the label pass `_draw_labels`.
* `astronomy.py`: the visible-star split, the magnitude filter and sort, and
  the greedy de-clutter loop of `calculate_celestial_positions`.
* `utils.py`: the coordinate branch of `resolve_location`.

Geometric quantities of the renderer are embedded over `ℝ` (the source works
with floating-point trigonometry; the embedding is the exact-real
idealisation).  The astronomy de-clutter pipeline and the location parser are
arithmetic only and are embedded over `ℚ`, fully executable.
-/

namespace Starforge

/-! ## Point distortions (`renderer.py`) -/

/-- `tangential_edge_bend(x, y, strength, edge_start)` from `renderer.py`:
identity below `edge_start`, otherwise a push along the normalized tangent
direction `(-y, x)` by `strength * t^2` with `t` the clamped edge fraction. -/
noncomputable def tangential_edge_bend (x y strength edge_start : ℝ) : ℝ × ℝ :=
  let r := Real.sqrt (x ^ 2 + y ^ 2)
  if r < edge_start then (x, y)
  else
    let t := min (max ((r - edge_start) / (1 - edge_start)) 0) 1
    let tangent_len := Real.sqrt ((-y) ^ 2 + x ^ 2)
    if tangent_len = 0 then (x, y)
    else
      let bend := strength * (t * t)
      (x + -y / tangent_len * bend, y + x / tangent_len * bend)

/-- `simulate_globe_projection(x, y, strength)` from `renderer.py`: blends the
flat radius with the orthographic radius `sin(r * pi/2)`; identity below the
`1e-6` radius cutoff. -/
noncomputable def simulate_globe_projection (x y strength : ℝ) : ℝ × ℝ :=
  let r := Real.sqrt (x ^ 2 + y ^ 2)
  if r < 1 / 1000000 then (x, y)
  else
    let theta := r * (Real.pi / 2)
    let r_ortho := Real.sin theta
    let r_blended := r * (1 - strength) + r_ortho * strength
    let scale := r_blended / r
    (x * scale, y * scale)

/-- Radius (`math.hypot`) of a point. -/
noncomputable def hypot (x y : ℝ) : ℝ := Real.sqrt (x ^ 2 + y ^ 2)

/-! ## Configuration and chart geometry (`renderer.py`, `SVGChart.__init__`) -/

/-- The fields of the `Config` dataclass that the chart geometry, the
clipper, the star pass and the label pass consult (defaults as in the
source). -/
structure Config where
  width_px : ℝ := 1000
  height_px : ℝ := 1000
  border_width : ℝ := 2
  background_star_size : ℝ := 7
  constellation_star_size : ℝ := 14
  show_labels : Bool := true
  fov_radius_deg : ℝ := 90
  sphere_effect : Bool := false
  sphere_distortion_strength : ℝ := 6 / 10
  bend_strength : ℝ := 2 / 100
  bounds : Option (ℝ × ℝ × ℝ × ℝ) := none

/-- The distortion `SVGChart` applies to every projected point: the spherize
blend when `sphere_effect` is set, the tangential edge bend (with its default
`edge_start = 0.9`) otherwise. -/
noncomputable def Config.distort (cfg : Config) (u v : ℝ) : ℝ × ℝ :=
  if cfg.sphere_effect then
    simulate_globe_projection u v cfg.sphere_distortion_strength
  else
    tangential_edge_bend u v cfg.bend_strength (9 / 10)

/-- `SVGChart._point_in_bounds`: inside the configured rectangle; everything
is allowed when no bounds are configured. -/
def Config.pointInBounds (cfg : Config) (p : ℝ × ℝ) : Prop :=
  match cfg.bounds with
  | none => True
  | some (x1, y1, x2, y2) => x1 ≤ p.1 ∧ p.1 ≤ x2 ∧ y1 ≤ p.2 ∧ p.2 ≤ y2

/-- A star record as produced by `calculate_celestial_positions` and consumed
by the renderer (`{'x': .., 'y': .., 'hip': .., 'mag': ..}`). -/
structure StarData where
  x : ℝ
  y : ℝ
  hip : ℕ
  mag : ℝ

/-- A constellation: name and list of `(start_hip, end_hip)` line segments. -/
abbrev Constellation := String × List (ℕ × ℕ)

/-- The state `SVGChart.__init__` builds: input data plus the configuration
as it stands after the field-of-view correction (the source mutates the
caller's `Config` in place; the embedding records the mutated value). -/
structure Chart where
  visible_stars : List StarData
  constellations : List Constellation
  config : Config

/-- The field-of-view correction of `SVGChart.__init__`: a non-positive
`fov_radius_deg` is reset to `90` on the caller's `Config` object; nothing
else on the config is touched. -/
noncomputable def correctedConfig (cfg : Config) : Config :=
  if cfg.fov_radius_deg ≤ 0 then { cfg with fov_radius_deg := 90 } else cfg

/-- `SVGChart.__init__` as far as the claims are concerned: store the inputs
and the (possibly corrected) configuration. -/
noncomputable def mkChart (visible_stars : List StarData)
    (constellations : List Constellation) (cfg : Config) : Chart :=
  { visible_stars := visible_stars
    constellations := constellations
    config := correctedConfig cfg }

namespace Chart

/-- `self.scale_factor = 90.0 / self.config.fov_radius_deg`. -/
noncomputable def scale_factor (c : Chart) : ℝ := 90 / c.config.fov_radius_deg

/-- `self.center_x = self.config.width_px / 2`. -/
noncomputable def center_x (c : Chart) : ℝ := c.config.width_px / 2

/-- `self.center_y = self.config.height_px / 2`. -/
noncomputable def center_y (c : Chart) : ℝ := c.config.height_px / 2

/-- `self.radius = (min(width_px, height_px) / 2) - border_width`. -/
noncomputable def radius (c : Chart) : ℝ :=
  min c.config.width_px c.config.height_px / 2 - c.config.border_width

/-- `self.star_hip_map = {star['hip']: star for star in self.visible_stars}`:
a Python dict comprehension keeps the last record for a repeated key, so
lookup is `find?` over the reversed list. -/
def starHipMap (c : Chart) (h : ℕ) : Option StarData :=
  c.visible_stars.reverse.find? (fun s => s.hip == h)

/-- All `(start_hip, end_hip)` lines of all constellations, in iteration
order. -/
def allLines (c : Chart) : List (ℕ × ℕ) :=
  c.constellations.flatMap Prod.snd

/-- `self.constellation_star_ids`: every HIP id that occurs as an endpoint of
some constellation line (membership in this list is the set membership the
source tests). -/
def constellationStarIds (c : Chart) : List ℕ :=
  c.allLines.flatMap (fun ab => [ab.1, ab.2])

/-- Mapping a distorted normalized point to canvas coordinates:
`(u * radius + center_x, v * radius + center_y)`. -/
noncomputable def toCanvas (c : Chart) (p : ℝ × ℝ) : ℝ × ℝ :=
  (p.1 * c.radius + c.center_x, p.2 * c.radius + c.center_y)

/-- The canvas position `_draw_stars` computes for a star: scale, flip `y`,
distort, map to canvas. -/
noncomputable def starCanvasPos (c : Chart) (s : StarData) : ℝ × ℝ :=
  c.toCanvas (c.config.distort (s.x * c.scale_factor) (-s.y * c.scale_factor))

/-- The 13 sampled canvas points (`num_segments = 12`, `i = 0 .. 12`) of the
straight segment between the scaled endpoint positions, each distorted and
mapped to canvas, as in `_draw_constellations`. -/
noncomputable def linePts (c : Chart) (s e : StarData) : List (ℝ × ℝ) :=
  (List.range 13).map (fun (i : ℕ) =>
    let t : ℝ := (i : ℝ) / 12
    let u1 := s.x * c.scale_factor
    let v1 := -s.y * c.scale_factor
    let u2 := e.x * c.scale_factor
    let v2 := -e.y * c.scale_factor
    c.toCanvas (c.config.distort (u1 + (u2 - u1) * t) (v1 + (v2 - v1) * t)))

/-- `SVGChart._polyline_fits_bounds`: every point inside the bounds. -/
def polylineFits (c : Chart) (pts : List (ℝ × ℝ)) : Prop :=
  ∀ p ∈ pts, c.config.pointInBounds p

open scoped Classical in
/-- The loop body of `_draw_constellations` over a list of lines: skip a line
with a missing endpoint, otherwise sample its 13 canvas points and, exactly
when the whole polyline fits the bounds, emit it and record both endpoint
ids into the visible-via-line set. -/
noncomputable def drawConsAux (c : Chart) : List (ℕ × ℕ) → List (List (ℝ × ℝ)) × List ℕ
  | [] => ([], [])
  | ab :: rest =>
    let acc := drawConsAux c rest
    match c.starHipMap ab.1, c.starHipMap ab.2 with
    | some s, some e =>
      let pts := c.linePts s e
      if c.polylineFits pts then (pts :: acc.1, ab.1 :: ab.2 :: acc.2) else acc
    | some _, none => acc
    | none, _ => acc

/-- `_draw_constellations`: runs the loop over every line of every
constellation. -/
noncomputable def drawConstellations (c : Chart) : List (List (ℝ × ℝ)) × List ℕ :=
  c.drawConsAux c.allLines

/-- The polylines actually added to the drawing. -/
noncomputable def drawnPolylines (c : Chart) : List (List (ℝ × ℝ)) :=
  c.drawConstellations.1

/-- `self.constellation_visible_star_ids` as it stands after
`_draw_constellations` (membership in this list is the set membership the
source tests). -/
noncomputable def visibleViaLine (c : Chart) : List ℕ :=
  c.drawConstellations.2

/-- The condition under which `_draw_stars` emits a glyph for a star record:
a constellation star must be in the visible-via-line set and (when bounds are
configured) in bounds; a background star only needs the bounds test. -/
noncomputable def starDrawn (c : Chart) (s : StarData) : Prop :=
  if s.hip ∈ c.constellationStarIds then
    s.hip ∈ c.visibleViaLine ∧
      (c.config.bounds = none ∨ c.config.pointInBounds (c.starCanvasPos s))
  else
    c.config.bounds = none ∨ c.config.pointInBounds (c.starCanvasPos s)

open scoped Classical in
/-- The glyphs `_draw_stars` emits, in drawing order (the iteration order of
`self.visible_stars`). -/
noncomputable def drawnStars (c : Chart) : List StarData :=
  c.visible_stars.filter (fun s => decide (c.starDrawn s))

open scoped Classical in
/-- The label-input positions `_draw_labels` collects for one constellation:
for every unique endpoint hip of its lines, the star's *undistorted* zoomed
canvas position, kept exactly when that position is within `radius` of the
chart center and the hip is in the visible-via-line set.  (The collection is
a Python set walk; order is irrelevant downstream, the embedding fixes the
first-occurrence order.) -/
noncomputable def labelPositions (c : Chart) (lines : List (ℕ × ℕ)) : List (ℝ × ℝ) :=
  ((lines.flatMap (fun ab => [ab.1, ab.2])).dedup).filterMap (fun h =>
    match c.starHipMap h with
    | none => none
    | some s =>
      let px := s.x * c.scale_factor * c.radius + c.center_x
      let py := -s.y * c.scale_factor * c.radius + c.center_y
      if (px - c.center_x) ^ 2 + (py - c.center_y) ^ 2 ≤ c.radius ^ 2 ∧
          h ∈ c.visibleViaLine then
        some (px, py)
      else none)

open scoped Classical in
/-- The label `_draw_labels` emits for one `(name, lines)` entry: nothing for
an empty line list or when no label-input position survives, otherwise the
name anchored at the arithmetic mean of the deduplicated positions (no bounds
test is applied to the mean). -/
noncomputable def labelFor (c : Chart) (nl : Constellation) : Option (String × (ℝ × ℝ)) :=
  if nl.2 = [] then none
  else
    let ups := (c.labelPositions nl.2).dedup
    if ups = [] then none
    else
      some (nl.1, ((ups.map Prod.fst).sum / ups.length,
                   (ups.map Prod.snd).sum / ups.length))

open scoped Classical in
/-- `_draw_labels`: nothing when labels are off, otherwise one optional label
per constellation entry. -/
noncomputable def drawLabels (c : Chart) : List (String × (ℝ × ℝ)) :=
  if c.config.show_labels then c.constellations.filterMap c.labelFor else []

end Chart

open scoped Classical in
/-- The label-input positions as the *claim* states them: member stars
present in the star map and in the visible-via-line set, with no radius
test.  This follows the claim's words and exists only to be compared with
the source's `Chart.labelPositions`. -/
noncomputable def claimedLabelPositions (c : Chart) (lines : List (ℕ × ℕ)) :
    List (ℝ × ℝ) :=
  ((lines.flatMap (fun ab => [ab.1, ab.2])).dedup).filterMap (fun h =>
    match c.starHipMap h with
    | none => none
    | some s =>
      if h ∈ c.visibleViaLine then
        some (s.x * c.scale_factor * c.radius + c.center_x,
              -s.y * c.scale_factor * c.radius + c.center_y)
      else none)

/-- The default configuration (all `Config` defaults, bounds absent). -/
noncomputable def cfgE : Config := {}

/-- A constellation star projected far outside the chart circle. -/
noncomputable def starA : StarData := ⟨2, 0, 1, 0⟩

/-- A second constellation star projected far outside the chart circle. -/
noncomputable def starB : StarData := ⟨3, 0, 2, 0⟩

/-- A concrete chart: two constellation stars joined by one line, default
configuration (no bounds, no sphere effect). -/
noncomputable def chartE : Chart := mkChart [starA, starB] [("T", [(1, 2)])] cfgE

/-! ## Astronomy pipeline (`astronomy.py`, `calculate_celestial_positions`) -/

/-- A Hipparcos catalog row after projection: HIP id, magnitude, apparent
altitude and the stereographic plane coordinates.  The pipeline from the
visibility split onward is pure arithmetic, so it is embedded over `ℚ`. -/
structure CatStar where
  hip : ℕ
  mag : ℚ
  alt : ℚ
  x : ℚ
  y : ℚ
deriving DecidableEq, Repr

/-- Every HIP id occurring as a constellation line endpoint
(`constellation_star_ids` of `calculate_celestial_positions`). -/
def catConstIds (constellations : List (String × List (ℕ × ℕ))) : List ℕ :=
  constellations.flatMap (fun nl => nl.2.flatMap (fun ab => [ab.1, ab.2]))

/-- The initial pass of `calculate_celestial_positions`: walk the catalog in
order, keep stars above the horizon (`alt > 0`) and route each into the
constellation list or the background list. -/
def firstPass (constIds : List ℕ) : List CatStar → List CatStar × List CatStar
  | [] => ([], [])
  | s :: rest =>
    let acc := firstPass constIds rest
    if 0 < s.alt then
      if s.hip ∈ constIds then (s :: acc.1, acc.2) else (acc.1, s :: acc.2)
    else acc

/-- `min_dist_sq = 0.03**2`. -/
def minDistSq : ℚ := (3 / 100) ^ 2

/-- Squared distance used by the de-clutter loop. -/
def distSq (p q : ℚ × ℚ) : ℚ := (p.1 - q.1) ^ 2 + (p.2 - q.2) ^ 2

/-- The greedy de-clutter loop of `calculate_celestial_positions`: walk the
candidates in order; a candidate closer than `0.03` to any occupied position
is dropped, otherwise it is accepted and its position appended to the
occupied list. -/
def declutter : List (ℚ × ℚ) → List CatStar → List CatStar
  | _, [] => []
  | occupied, s :: rest =>
    if occupied.any (fun o => decide (distSq (s.x, s.y) o < minDistSq)) then
      declutter occupied rest
    else
      s :: declutter (occupied ++ [(s.x, s.y)]) rest

/-- Step 6 of `calculate_celestial_positions`: the visibility split into
`(constellation_stars_to_render, background_stars_to_filter)`. -/
def calcSplit (catalog : List CatStar)
    (constellations : List (String × List (ℕ × ℕ))) : List CatStar × List CatStar :=
  firstPass (catConstIds constellations) catalog

/-- Steps 7-8: background candidates filtered to `mag <= magnitude_limit`
and sorted ascending by magnitude (brightest first; Python `list.sort` is a
stable ascending sort). -/
def calcCandidatesSorted (catalog : List CatStar)
    (constellations : List (String × List (ℕ × ℕ))) (magnitude_limit : ℚ) :
    List CatStar :=
  List.insertionSort (fun a b => a.mag ≤ b.mag)
    ((calcSplit catalog constellations).2.filter
      (fun s => decide (s.mag ≤ magnitude_limit)))

/-- Step 9: the de-clutter pass seeded with the constellation-star
positions. -/
def calcFinalBackground (catalog : List CatStar)
    (constellations : List (String × List (ℕ × ℕ))) (magnitude_limit : ℚ) :
    List CatStar :=
  declutter ((calcSplit catalog constellations).1.map (fun s => (s.x, s.y)))
    (calcCandidatesSorted catalog constellations magnitude_limit)

/-- Steps 6-9 of `calculate_celestial_positions`: constellation stars
followed by the surviving background stars. -/
def calcVisibleStars (catalog : List CatStar)
    (constellations : List (String × List (ℕ × ℕ))) (magnitude_limit : ℚ) :
    List CatStar :=
  (calcSplit catalog constellations).1 ++
    calcFinalBackground catalog constellations magnitude_limit

/-! ## Location resolution (`utils.py`, `resolve_location`)

The coordinate branch applies the regular expression
`^(-?\d+(\.\d+)?)[,\s]+(-?\d+(\.\d+)?)$` to `query.strip()`.  Since the
character classes of consecutive regex pieces are disjoint, greedy matching
with backtracking coincides with the deterministic descent embedded here.
Parsed values are embedded as exact rationals. -/

/-- The separator class `[,\s]`. -/
def isSep (ch : Char) : Bool := ch == ',' || ch.isWhitespace

/-- `query.strip()`: drop whitespace from both ends. -/
def stripWS (cs : List Char) : List Char :=
  ((cs.dropWhile Char.isWhitespace).reverse.dropWhile Char.isWhitespace).reverse

/-- Value of a digit string (most significant first). -/
def digitsVal (ds : List Char) : ℕ :=
  ds.foldl (fun a ch => 10 * a + (ch.toNat - 48)) 0

/-- The optional leading minus, `-?`. -/
def parseSign (cs : List Char) : Bool × List Char :=
  if cs.head? == some '-' then (true, cs.tail) else (false, cs)

/-- The optional fractional part `(\.\d+)?` followed by the end of the
number: combines the integer value with the fraction and applies the sign. -/
def parseFrac (neg : Bool) (base : ℚ) (rest : List Char) : Option (ℚ × List Char) :=
  if rest.head? == some '.' then
    let fs := rest.tail.takeWhile Char.isDigit
    if fs.isEmpty then none
    else
      let v := base + (digitsVal fs : ℚ) / 10 ^ fs.length
      some (if neg then -v else v, rest.tail.dropWhile Char.isDigit)
  else
    some (if neg then -base else base, rest)

/-- One number of the pattern, `-?\d+(\.\d+)?`, returning its exact value and
the unconsumed input; `none` when the input does not start with such a
number (a `.` not followed by a digit makes the whole match fail, exactly as
the regex does after backtracking, since `.` is not a separator either). -/
def parseNumber (cs : List Char) : Option (ℚ × List Char) :=
  let sn := parseSign cs
  let ds := sn.2.takeWhile Char.isDigit
  if ds.isEmpty then none
  else parseFrac sn.1 (digitsVal ds) (sn.2.dropWhile Char.isDigit)

/-- The full anchored pattern `^number[,\s]+number$`. -/
def parseCoordPattern (cs : List Char) : Option (ℚ × ℚ) :=
  match parseNumber cs with
  | none => none
  | some (a, rest) =>
    let seps := rest.takeWhile isSep
    let rest2 := rest.dropWhile isSep
    if seps.isEmpty then none
    else
      match parseNumber rest2 with
      | none => none
      | some (b, rest3) => if rest3.isEmpty then some (a, b) else none

/-- Outcome of `resolve_location`: either the coordinate branch (which also
formats the name `Coordinates {lat}, {lon}` from exactly these two values)
or the fallthrough into city lookup. -/
inductive LocationResult where
  | coords (lat lon : ℚ)
  | cityLookup
deriving DecidableEq

/-- `resolve_location`: try the coordinate pattern on the stripped query and
return the two parsed values; only on a failed match fall through to city
lookup. -/
def resolve_location (query : List Char) : LocationResult :=
  match parseCoordPattern (stripWS query) with
  | some ab => LocationResult.coords ab.1 ab.2
  | none => LocationResult.cityLookup

/-- Rendering of an optional fractional part. -/
def fracRender : Option (List Char) → List Char
  | none => []
  | some l => '.' :: l

/-- Rendering of one number of the pattern: optional minus sign, integer
digits, optional fractional digits. -/
def renderNum (neg : Bool) (ds : List Char) (fs : Option (List Char)) : List Char :=
  (if neg then ['-'] else []) ++ ds ++ fracRender fs

/-- The exact value `float()` is handed for such a rendered number. -/
def numValue (neg : Bool) (ds : List Char) (fs : Option (List Char)) : ℚ :=
  let v : ℚ := (digitsVal ds : ℚ) +
    (match fs with
     | none => 0
     | some l => (digitsVal l : ℚ) / 10 ^ l.length)
  if neg then -v else v

/-! ## Character-class facts for the coordinate pattern -/

/-- A digit is not whitespace. -/
theorem digit_not_ws (ch : Char) (h : ch.isDigit = true) : ch.isWhitespace = false := by
  by_contra hw
  rw [Bool.not_eq_false] at hw
  have hmem : ch = ' ' ∨ ch = '\t' ∨ ch = '\r' ∨ ch = '\n' := by
    simpa [Char.isWhitespace, or_assoc] using hw
  rcases hmem with rfl | rfl | rfl | rfl <;> simp [Char.isDigit] at h

/-- A digit is not a separator. -/
theorem digit_not_sep (ch : Char) (h : ch.isDigit = true) : isSep ch = false := by
  by_contra hs
  rw [Bool.not_eq_false] at hs
  rcases Bool.or_eq_true_iff.mp hs with h1 | h2
  · rw [show ch = ',' by simpa using h1] at h
    simp [Char.isDigit] at h
  · rw [digit_not_ws ch h] at h2
    simp at h2

/-- A separator is not a digit. -/
theorem sep_not_digit (ch : Char) (h : isSep ch = true) : ch.isDigit = false := by
  by_contra hd
  rw [Bool.not_eq_false] at hd
  rw [digit_not_sep ch hd] at h
  simp at h

/-- A separator is not the decimal point. -/
theorem sep_ne_dot (ch : Char) (h : isSep ch = true) : ch ≠ '.' := by
  intro he
  subst he
  exact absurd h (by decide)

/-- `takeWhile`/`dropWhile` split an all-satisfying prefix off exactly. -/
theorem span_append (p : Char → Bool) (l rest : List Char)
    (hrest : ∀ ch, rest.head? = some ch → p ch = false) :
    (∀ ch ∈ l, p ch = true) →
      (l ++ rest).takeWhile p = l ∧ (l ++ rest).dropWhile p = rest := by
  induction l with
  | nil =>
    intro _
    simp only [List.nil_append]
    cases rest with
    | nil => simp
    | cons r t =>
      have hr := hrest r rfl
      simp [List.takeWhile_cons, List.dropWhile_cons, hr]
  | cons a l ih =>
    intro hl
    have ha := hl a (List.mem_cons_self a l)
    have ih' := ih (fun ch hch => hl ch (List.mem_cons_of_mem a hch))
    simp only [List.cons_append, List.takeWhile_cons, List.dropWhile_cons, ha,
      if_true, ih'.1, ih'.2]
    simp

/-- Stripping touches nothing when both ends are non-whitespace. -/
theorem stripWS_eq_of_ends (cs : List Char)
    (h1 : ∀ ch, cs.head? = some ch → ch.isWhitespace = false)
    (h2 : ∀ ch, cs.getLast? = some ch → ch.isWhitespace = false) :
    stripWS cs = cs := by
  have d1 : cs.dropWhile Char.isWhitespace = cs := by
    cases cs with
    | nil => rfl
    | cons a t =>
      have := h1 a rfl
      simp [List.dropWhile_cons, this]
  have d2 : cs.reverse.dropWhile Char.isWhitespace = cs.reverse := by
    cases hr : cs.reverse with
    | nil => rfl
    | cons a t =>
      have ha : cs.getLast? = some a := by rw [← List.head?_reverse, hr]; rfl
      have := h2 a ha
      simp [List.dropWhile_cons, this]
  unfold stripWS
  rw [d1, d2, List.reverse_reverse]

/-! ## Theorems: chart geometry (claims about `SVGChart.__init__`) -/

/-- **C6.** If the configured field-of-view radius is not positive,
chart-geometry construction resets it to 90; in every case the resulting
`scale_factor` equals `90` divided by the (possibly corrected) field of view
and is strictly positive. -/
theorem fov_correction_yields_positive_scale (stars : List StarData)
    (cons : List Constellation) (cfg : Config) :
    (cfg.fov_radius_deg ≤ 0 → (mkChart stars cons cfg).config.fov_radius_deg = 90) ∧
    (mkChart stars cons cfg).scale_factor =
      90 / (mkChart stars cons cfg).config.fov_radius_deg ∧
    0 < (mkChart stars cons cfg).scale_factor := by
  refine ⟨fun h => ?_, rfl, ?_⟩
  · simp [mkChart, correctedConfig, h]
  · have hpos : 0 < (mkChart stars cons cfg).config.fov_radius_deg := by
      by_cases h : cfg.fov_radius_deg ≤ 0
      · simp [mkChart, correctedConfig, h]
      · push_neg at h
        simpa [mkChart, correctedConfig, not_le.mpr h] using h
    have : (mkChart stars cons cfg).scale_factor =
        90 / (mkChart stars cons cfg).config.fov_radius_deg := rfl
    rw [this]
    positivity

/-- Witness for C6 at the concrete non-positive field of view `-5`. -/
theorem fov_correction_yields_positive_scale_witness :
    (mkChart [] [] { fov_radius_deg := -5 }).config.fov_radius_deg = 90 ∧
    0 < (mkChart [] [] { fov_radius_deg := -5 }).scale_factor :=
  ⟨(fov_correction_yields_positive_scale [] [] { fov_radius_deg := -5 }).1 (by norm_num),
   (fov_correction_yields_positive_scale [] [] { fov_radius_deg := -5 }).2.2⟩

/-- **C9.** Constructing the chart with a non-positive field of view mutates
the caller's shared `Config`: afterwards `fov_radius_deg` reads `90`, and no
other field of the configuration is modified by the geometry setup. -/
theorem init_mutates_only_fov (stars : List StarData) (cons : List Constellation)
    (cfg : Config) (h : cfg.fov_radius_deg ≤ 0) :
    (mkChart stars cons cfg).config = { cfg with fov_radius_deg := 90 } := by
  simp [mkChart, correctedConfig, h]

/-- Witness for C9 at the concrete configuration with field of view `-1`. -/
theorem init_mutates_only_fov_witness :
    (mkChart [] [] { fov_radius_deg := -1 }).config =
      { ({ fov_radius_deg := -1 } : Config) with fov_radius_deg := 90 } :=
  init_mutates_only_fov [] [] { fov_radius_deg := -1 } (by norm_num)

/-! ## Theorems: the de-clutter loop (`astronomy.py`) -/

/-- Squared distance is symmetric. -/
theorem distSq_comm (p q : ℚ × ℚ) : distSq p q = distSq q p := by
  unfold distSq; ring

/-- The de-clutter invariant: every accepted star keeps squared distance at
least `0.03²` to every initially occupied position, and the accepted stars
are pairwise at squared distance at least `0.03²`. -/
theorem declutter_invariant (cands : List CatStar) :
    ∀ occupied : List (ℚ × ℚ),
      (∀ s ∈ declutter occupied cands, ∀ o ∈ occupied,
        minDistSq ≤ distSq (s.x, s.y) o) ∧
      List.Pairwise (fun a b => minDistSq ≤ distSq (a.x, a.y) (b.x, b.y))
        (declutter occupied cands) := by
  induction cands with
  | nil => intro occupied; simp [declutter]
  | cons c rest ih =>
    intro occupied
    by_cases hc :
        (occupied.any fun o => decide (distSq (c.x, c.y) o < minDistSq)) = true
    · rw [show declutter occupied (c :: rest) = declutter occupied rest by
        simp [declutter, hc]]
      exact ih occupied
    · have hfar : ∀ o ∈ occupied, minDistSq ≤ distSq (c.x, c.y) o := by
        intro o ho
        by_contra hlt
        exact hc (List.any_eq_true.mpr ⟨o, ho, by simpa using not_le.mp hlt⟩)
      rw [show declutter occupied (c :: rest) =
          c :: declutter (occupied ++ [(c.x, c.y)]) rest by
        simp [declutter, hc]]
      have ih2 := ih (occupied ++ [(c.x, c.y)])
      constructor
      · intro s hs o ho
        rcases List.mem_cons.mp hs with rfl | hs'
        · exact hfar o ho
        · exact ih2.1 s hs' o (List.mem_append_left _ ho)
      · refine List.pairwise_cons.mpr ⟨fun b hb => ?_, ih2.2⟩
        have := ih2.1 b hb (c.x, c.y)
          (List.mem_append_right _ (List.mem_singleton_self _))
        rw [distSq_comm] at this
        exact this

/-- **C4 (amended).** The greedy declutter walks the candidates in order; a
candidate is accepted exactly when its squared distance to every
already-occupied position is **at least** `0.03²` (the source test is
`dist_sq < min_dist_sq`, so equality with the threshold is accepted), and on
acceptance its position joins the occupied set.  Consequently every pair of
accepted stars is at squared distance at least `0.03²`, and every accepted
star is at squared distance at least `0.03²` from every seed position. -/
theorem declutter_greedy_spec (occupied : List (ℚ × ℚ)) (cands : List CatStar) :
    (∀ c rest, declutter occupied (c :: rest) =
      if ∀ o ∈ occupied, minDistSq ≤ distSq (c.x, c.y) o then
        c :: declutter (occupied ++ [(c.x, c.y)]) rest
      else declutter occupied rest) ∧
    (∀ s ∈ declutter occupied cands, ∀ o ∈ occupied,
      minDistSq ≤ distSq (s.x, s.y) o) ∧
    List.Pairwise (fun a b => minDistSq ≤ distSq (a.x, a.y) (b.x, b.y))
      (declutter occupied cands) := by
  refine ⟨fun c rest => ?_, (declutter_invariant cands occupied).1,
    (declutter_invariant cands occupied).2⟩
  by_cases hfar : ∀ o ∈ occupied, minDistSq ≤ distSq (c.x, c.y) o
  · rw [if_pos hfar]
    have hc : (occupied.any fun o => decide (distSq (c.x, c.y) o < minDistSq)) = false := by
      rw [Bool.eq_false_iff]
      intro hany
      rcases List.any_eq_true.mp hany with ⟨o, ho, hlt⟩
      exact absurd (hfar o ho) (not_le.mpr (by simpa using hlt))
    simp [declutter, hc]
  · rw [if_neg hfar]
    push_neg at hfar
    rcases hfar with ⟨o, ho, hlt⟩
    have hc : (occupied.any fun o => decide (distSq (c.x, c.y) o < minDistSq)) = true :=
      List.any_eq_true.mpr ⟨o, ho, by simpa using hlt⟩
    simp [declutter, hc]

/-- Witness for C4: with the origin occupied, the candidate at `(1, 0)` is
accepted and the theorem yields its distance bound to the seed. -/
theorem declutter_greedy_spec_witness :
    minDistSq ≤ distSq ((1 : ℚ), 0) (0, 0) := by
  have h := (declutter_greedy_spec [((0 : ℚ), 0)] [⟨9, 0, 1, 1, 0⟩]).2.1
  exact h ⟨9, 0, 1, 1, 0⟩ (by norm_num [declutter, distSq, minDistSq]) (0, 0) (by decide)

/-- Counterexample to C4 as stated: the claim requires acceptance only when
the squared distance *exceeds* `0.03²`, but the source accepts a candidate
whose squared distance to an occupied position is exactly `0.03²`. -/
theorem declutter_accepts_at_exact_threshold :
    declutter [((0 : ℚ), 0)] [⟨7, 0, 1, 3 / 100, 0⟩] = [⟨7, 0, 1, 3 / 100, 0⟩] ∧
    ¬ minDistSq < distSq ((3 : ℚ) / 100, 0) (0, 0) := by
  constructor
  · norm_num [declutter, distSq, minDistSq]
  · norm_num [minDistSq, distSq]

/-! ## Theorems: the point distortions -/

/-- **C7 (amended).** For a point with radius at least `1e-6`, the spherize
transform at strength `0` is the identity, and at strength `1` it returns a
point whose radius equals `|sin(r * pi/2)|`; below the `1e-6` cutoff it is
the identity at every strength.  (The absolute value is forced: for `r > 2`
the source's blended radius `sin(r * pi/2)` is negative while the output's
radius cannot be.) -/
theorem spherize_strength_endpoints (x y : ℝ) :
    (1 / 1000000 ≤ hypot x y → simulate_globe_projection x y 0 = (x, y)) ∧
    (1 / 1000000 ≤ hypot x y →
      hypot (simulate_globe_projection x y 1).1 (simulate_globe_projection x y 1).2 =
        |Real.sin (hypot x y * (Real.pi / 2))|) ∧
    (hypot x y < 1 / 1000000 → ∀ strength, simulate_globe_projection x y strength = (x, y)) := by
  have hh : hypot x y = Real.sqrt (x ^ 2 + y ^ 2) := rfl
  refine ⟨fun h => ?_, fun h => ?_, fun h strength => ?_⟩
  · rw [hh] at h
    have hpos : (0 : ℝ) < Real.sqrt (x ^ 2 + y ^ 2) :=
      lt_of_lt_of_le (by norm_num) h
    have hne : Real.sqrt (x ^ 2 + y ^ 2) ≠ 0 := ne_of_gt hpos
    simp only [simulate_globe_projection]
    rw [if_neg (not_lt.mpr h)]
    have hscale :
        (Real.sqrt (x ^ 2 + y ^ 2) * (1 - 0) +
          Real.sin (Real.sqrt (x ^ 2 + y ^ 2) * (Real.pi / 2)) * 0) /
            Real.sqrt (x ^ 2 + y ^ 2) = 1 := by
      rw [mul_zero, add_zero, sub_zero, mul_one, div_self hne]
    rw [hscale, mul_one, mul_one]
  · rw [hh] at h
    have hpos : (0 : ℝ) < Real.sqrt (x ^ 2 + y ^ 2) :=
      lt_of_lt_of_le (by norm_num) h
    have hne : Real.sqrt (x ^ 2 + y ^ 2) ≠ 0 := ne_of_gt hpos
    simp only [simulate_globe_projection, hypot]
    rw [if_neg (not_lt.mpr h)]
    have hscale :
        (Real.sqrt (x ^ 2 + y ^ 2) * (1 - 1) +
          Real.sin (Real.sqrt (x ^ 2 + y ^ 2) * (Real.pi / 2)) * 1) /
            Real.sqrt (x ^ 2 + y ^ 2) =
          Real.sin (Real.sqrt (x ^ 2 + y ^ 2) * (Real.pi / 2)) /
            Real.sqrt (x ^ 2 + y ^ 2) := by
      rw [sub_self, mul_zero, zero_add, mul_one]
    rw [hscale]
    set s := Real.sin (Real.sqrt (x ^ 2 + y ^ 2) * (Real.pi / 2)) with hs
    have hsq : (x * (s / Real.sqrt (x ^ 2 + y ^ 2))) ^ 2 +
        (y * (s / Real.sqrt (x ^ 2 + y ^ 2))) ^ 2 =
        (s / Real.sqrt (x ^ 2 + y ^ 2)) ^ 2 * (x ^ 2 + y ^ 2) := by ring
    rw [hsq, Real.sqrt_mul (sq_nonneg _), Real.sqrt_sq_eq_abs, abs_div,
      abs_of_pos hpos, div_mul_cancel₀ _ (ne_of_gt hpos)]
  · rw [hh] at h
    simp only [simulate_globe_projection]
    rw [if_pos h]

/-- Counterexample to C7 as stated: at the point `(3, 0)` (radius `3`) with
strength `1` the output's radius is `1`, while `sin(3 * pi/2) = -1`, so the
output radius does not equal `sin(r * pi/2)`. -/
theorem spherize_radius_counterexample :
    hypot (simulate_globe_projection 3 0 1).1 (simulate_globe_projection 3 0 1).2 ≠
      Real.sin (hypot 3 0 * (Real.pi / 2)) := by
  have h3 : hypot 3 0 = 3 := by
    rw [show hypot 3 0 = Real.sqrt ((3 : ℝ) ^ 2 + 0 ^ 2) from rfl,
      show ((3 : ℝ) ^ 2 + 0 ^ 2) = 3 ^ 2 by norm_num, Real.sqrt_sq (by norm_num)]
  have hsin : Real.sin (3 * (Real.pi / 2)) = -1 := by
    rw [show (3 : ℝ) * (Real.pi / 2) = Real.pi + Real.pi / 2 by ring]
    rw [Real.sin_add, Real.sin_pi, Real.cos_pi, Real.sin_pi_div_two,
      Real.cos_pi_div_two]
    norm_num
  have habs := (spherize_strength_endpoints 3 0).2.1 (by rw [h3]; norm_num)
  rw [h3] at habs ⊢
  rw [habs, hsin]
  norm_num

/-- Witness for C7 at `(1, 0)` (radius `1`) and `(0, 0)` (radius `0`). -/
theorem spherize_strength_endpoints_witness :
    simulate_globe_projection 1 0 0 = (1, 0) ∧
    hypot (simulate_globe_projection 1 0 1).1 (simulate_globe_projection 1 0 1).2 =
      |Real.sin (hypot 1 0 * (Real.pi / 2))| ∧
    simulate_globe_projection 0 0 5 = (0, 0) := by
  have h1 : (1 : ℝ) / 1000000 ≤ hypot 1 0 := by
    rw [show hypot 1 0 = Real.sqrt ((1 : ℝ) ^ 2 + 0 ^ 2) from rfl,
      show ((1 : ℝ) ^ 2 + 0 ^ 2) = 1 by norm_num, Real.sqrt_one]
    norm_num
  have h0 : hypot 0 0 < 1 / 1000000 := by
    rw [show hypot 0 0 = Real.sqrt ((0 : ℝ) ^ 2 + 0 ^ 2) from rfl,
      show ((0 : ℝ) ^ 2 + 0 ^ 2) = 0 by norm_num, Real.sqrt_zero]
    norm_num
  exact ⟨(spherize_strength_endpoints 1 0).1 h1,
    (spherize_strength_endpoints 1 0).2.1 h1,
    (spherize_strength_endpoints 0 0).2.2 h0 5⟩

/-- **C8.** The tangential edge bend (at its default `edge_start = 0.9`) is
the identity for radius strictly below `0.9`; for radius at least `0.9` it
displaces the point along the unit tangent `(-y, x)/r` by
`strength * t^2` with `t = clamp((r - 0.9)/(1 - 0.9), 0, 1)`. -/
theorem tangential_bend_characterization (x y strength : ℝ) :
    (hypot x y < 9 / 10 → tangential_edge_bend x y strength (9 / 10) = (x, y)) ∧
    (9 / 10 ≤ hypot x y →
      tangential_edge_bend x y strength (9 / 10) =
        (x + -y / hypot x y *
          (strength * (min (max ((hypot x y - 9 / 10) / (1 - 9 / 10)) 0) 1 *
            min (max ((hypot x y - 9 / 10) / (1 - 9 / 10)) 0) 1)),
         y + x / hypot x y *
          (strength * (min (max ((hypot x y - 9 / 10) / (1 - 9 / 10)) 0) 1 *
            min (max ((hypot x y - 9 / 10) / (1 - 9 / 10)) 0) 1)))) := by
  have hh : hypot x y = Real.sqrt (x ^ 2 + y ^ 2) := rfl
  constructor
  · intro h
    rw [hh] at h
    simp only [tangential_edge_bend]
    rw [if_pos h]
  · intro h
    rw [hh] at h
    have hpos : (0 : ℝ) < Real.sqrt (x ^ 2 + y ^ 2) :=
      lt_of_lt_of_le (by norm_num) h
    have htan : Real.sqrt ((-y) ^ 2 + x ^ 2) = Real.sqrt (x ^ 2 + y ^ 2) := by
      rw [show ((-y) ^ 2 + x ^ 2) = x ^ 2 + y ^ 2 by ring]
    simp only [tangential_edge_bend, hypot]
    rw [if_neg (not_lt.mpr h), htan, if_neg (ne_of_gt hpos)]

/-- Witness for C8 at `(1, 0)` (radius `1`, bent to `(1, 2)` at strength
`2`) and `(1/2, 0)` (radius `1/2`, untouched). -/
theorem tangential_bend_characterization_witness :
    tangential_edge_bend 1 0 2 (9 / 10) = (1, 2) ∧
    tangential_edge_bend (1 / 2) 0 2 (9 / 10) = (1 / 2, 0) := by
  have hyp1 : hypot 1 0 = 1 := by
    rw [show hypot 1 0 = Real.sqrt ((1 : ℝ) ^ 2 + 0 ^ 2) from rfl,
      show ((1 : ℝ) ^ 2 + 0 ^ 2) = 1 by norm_num, Real.sqrt_one]
  have hyp2 : hypot (1 / 2) 0 = 1 / 2 := by
    rw [show hypot (1 / 2) 0 = Real.sqrt (((1 : ℝ) / 2) ^ 2 + 0 ^ 2) from rfl,
      show (((1 : ℝ) / 2) ^ 2 + 0 ^ 2) = (1 / 2) ^ 2 by norm_num,
      Real.sqrt_sq (by norm_num)]
  constructor
  · have h := (tangential_bend_characterization 1 0 2).2 (by rw [hyp1]; norm_num)
    rw [hyp1] at h
    rw [h]
    norm_num
  · exact (tangential_bend_characterization (1 / 2) 0 2).1 (by rw [hyp2]; norm_num)

/-! ## Theorems: the coordinate branch of `resolve_location` -/

/-- `parseSign` takes a leading minus. -/
theorem parseSign_minus (t : List Char) : parseSign ('-' :: t) = (true, t) := by
  simp [parseSign]

/-- `parseSign` leaves a non-minus head alone. -/
theorem parseSign_other (c : Char) (t : List Char) (h : c ≠ '-') :
    parseSign (c :: t) = (false, c :: t) := by
  simp [parseSign, h]

/-- `parseFrac` without a dot. -/
theorem parseFrac_no_dot (neg : Bool) (base : ℚ) (rest : List Char)
    (h : ∀ ch, rest.head? = some ch → ch ≠ '.') :
    parseFrac neg base rest = some (if neg then -base else base, rest) := by
  cases rest with
  | nil => rfl
  | cons r t =>
    have := h r rfl
    simp [parseFrac, this]

/-- `parseFrac` on a dot followed by digits. -/
theorem parseFrac_dot (neg : Bool) (base : ℚ) (f : Char) (l rest : List Char)
    (hld : ∀ ch ∈ f :: l, ch.isDigit = true)
    (hrest : ∀ ch, rest.head? = some ch → ch.isDigit = false) :
    parseFrac neg base ('.' :: ((f :: l) ++ rest)) =
      some (if neg then -(base + (digitsVal (f :: l) : ℚ) / 10 ^ (f :: l).length)
            else base + (digitsVal (f :: l) : ℚ) / 10 ^ (f :: l).length, rest) := by
  have hspan := span_append Char.isDigit (f :: l) rest hrest hld
  simp only [parseFrac, List.head?_cons, List.tail_cons]
  rw [show (some '.' == some '.') = true from rfl]
  simp only [if_true, hspan.1, hspan.2, List.isEmpty_cons, Bool.false_eq_true,
    if_false]

/-- `parseNumber` consumes exactly a rendered number and yields its decimal
value, whenever the remaining input does not begin with a digit or a dot. -/
theorem parseNumber_renderNum (neg : Bool) (ds : List Char)
    (fs : Option (List Char)) (rest : List Char)
    (hne : ds ≠ []) (hds : ∀ ch ∈ ds, ch.isDigit = true)
    (hfs : ∀ l, fs = some l → l ≠ [] ∧ ∀ ch ∈ l, ch.isDigit = true)
    (hrest : ∀ ch, rest.head? = some ch → ch.isDigit = false ∧ ch ≠ '.') :
    parseNumber (renderNum neg ds fs ++ rest) = some (numValue neg ds fs, rest) := by
  rcases hd : ds with _ | ⟨c, ds'⟩
  · exact absurd hd hne
  subst hd
  have hfr : ∀ ch, (fracRender fs ++ rest).head? = some ch →
      ch.isDigit = false := by
    rcases fs with _ | l
    · intro ch hch
      exact (hrest ch hch).1
    · intro ch hch
      simp only [fracRender, List.cons_append, List.head?_cons,
        Option.some.injEq] at hch
      rw [← hch]
      decide
  have hspan := span_append Char.isDigit (c :: ds') (fracRender fs ++ rest) hfr hds
  have hfrac : parseFrac neg (digitsVal (c :: ds')) (fracRender fs ++ rest) =
      some (numValue neg (c :: ds') fs, rest) := by
    rcases fs with _ | l
    · rw [show fracRender none ++ rest = rest by simp [fracRender]]
      rw [parseFrac_no_dot neg _ rest (fun ch hch => (hrest ch hch).2)]
      simp [numValue]
    · obtain ⟨hlne, hld⟩ := hfs l rfl
      rcases hl : l with _ | ⟨f, l'⟩
      · exact absurd hl hlne
      subst hl
      rw [show fracRender (some (f :: l')) ++ rest = '.' :: ((f :: l') ++ rest)
        by simp [fracRender]]
      rw [parseFrac_dot neg _ f l' rest hld (fun ch hch => (hrest ch hch).1)]
      simp [numValue]
  simp only [List.cons_append] at hspan
  cases neg with
  | true =>
    rw [show renderNum true (c :: ds') fs ++ rest =
      '-' :: (c :: (ds' ++ (fracRender fs ++ rest))) by simp [renderNum]]
    simp only [parseNumber, parseSign_minus, hspan.1, hspan.2,
      List.isEmpty_cons, Bool.false_eq_true, if_false]
    exact hfrac
  | false =>
    have hcd := hds c (List.mem_cons_self c ds')
    have hcne : c ≠ '-' := by
      intro he
      rw [he] at hcd
      simp [Char.isDigit] at hcd
    rw [show renderNum false (c :: ds') fs ++ rest =
      c :: (ds' ++ (fracRender fs ++ rest)) by simp [renderNum]]
    simp only [parseNumber, parseSign_other c _ hcne, hspan.1, hspan.2,
      List.isEmpty_cons, Bool.false_eq_true, if_false]
    exact hfrac

/-- The first character of a rendered number (followed by anything) is its
minus sign or its leading digit. -/
theorem renderNum_append_head (neg : Bool) (c : Char) (t : List Char)
    (fs : Option (List Char)) (X : List Char) :
    (renderNum neg (c :: t) fs ++ X).head? = some (if neg then '-' else c) := by
  cases neg <;> simp [renderNum]

/-- The last character of anything followed by a rendered number is one of
the number's digits. -/
theorem renderNum_append_getLast (neg : Bool) (ds : List Char)
    (fs : Option (List Char)) (X : List Char) (hne : ds ≠ [])
    (hfs : ∀ l, fs = some l → l ≠ []) :
    ∃ ch, (X ++ renderNum neg ds fs).getLast? = some ch ∧
      (ch ∈ ds ∨ ∃ l, fs = some l ∧ ch ∈ l) := by
  rcases hf : fs with _ | l
  · refine ⟨ds.getLast hne, ?_, Or.inl (List.getLast_mem hne)⟩
    rw [show renderNum neg ds none = (if neg then ['-'] else []) ++ (ds ++ [])
      by simp [renderNum, fracRender]]
    simp [List.getLast?_append, List.getLast?_eq_getLast ds hne, Option.or_some]
  · have hl := hfs l hf
    refine ⟨l.getLast hl, ?_, Or.inr ⟨l, rfl, List.getLast_mem hl⟩⟩
    rw [show renderNum neg ds (some l) =
      (if neg then ['-'] else []) ++ (ds ++ (['.'] ++ l))
      by simp [renderNum, fracRender]]
    rcases l with _ | ⟨x, xs⟩
    · exact absurd rfl hl
    simp [List.getLast?_append, List.getLast?_cons_cons,
      List.getLast?_eq_getLast, Option.or_some]

/-- **C10.** Any query that is two decimal numbers (each an optional minus
sign, integer digits and an optional fractional part) separated by one or
more commas/whitespace resolves through the coordinate branch to exactly the
two parsed values — with no range validation — and the city lookup runs
exactly when the coordinate pattern fails to match the stripped query. -/
theorem resolve_location_coordinates (n1 n2 : Bool) (d1 d2 : List Char)
    (f1 f2 : Option (List Char)) (sep : List Char)
    (hd1 : d1 ≠ []) (hd1d : ∀ ch ∈ d1, ch.isDigit = true)
    (hd2 : d2 ≠ []) (hd2d : ∀ ch ∈ d2, ch.isDigit = true)
    (hf1 : ∀ l, f1 = some l → l ≠ [] ∧ ∀ ch ∈ l, ch.isDigit = true)
    (hf2 : ∀ l, f2 = some l → l ≠ [] ∧ ∀ ch ∈ l, ch.isDigit = true)
    (hsep : sep ≠ []) (hseps : ∀ ch ∈ sep, isSep ch = true) :
    resolve_location (renderNum n1 d1 f1 ++ (sep ++ renderNum n2 d2 f2)) =
      LocationResult.coords (numValue n1 d1 f1) (numValue n2 d2 f2) ∧
    ∀ q : List Char,
      resolve_location q = LocationResult.cityLookup ↔
        parseCoordPattern (stripWS q) = none := by
  constructor
  · -- the rendered query survives strip unchanged
    rcases hd : d1 with _ | ⟨c1, d1'⟩
    · exact absurd hd hd1
    subst hd
    have hhead : ∀ ch,
        (renderNum n1 (c1 :: d1') f1 ++ (sep ++ renderNum n2 d2 f2)).head? =
          some ch → ch.isWhitespace = false := by
      intro ch hch
      rw [renderNum_append_head] at hch
      cases n1 with
      | true =>
        rw [show ch = '-' by simpa using hch.symm]
        decide
      | false =>
        rw [show ch = c1 by simpa using hch.symm]
        exact digit_not_ws c1 (hd1d c1 (List.mem_cons_self c1 d1'))
    have hlast : ∀ ch,
        (renderNum n1 (c1 :: d1') f1 ++ (sep ++ renderNum n2 d2 f2)).getLast? =
          some ch → ch.isWhitespace = false := by
      intro ch hch
      obtain ⟨ch2, hch2, hmem⟩ := renderNum_append_getLast n2 d2 f2
        (renderNum n1 (c1 :: d1') f1 ++ sep) hd2 (fun l hl => (hf2 l hl).1)
      rw [List.append_assoc] at hch2
      rw [hch2] at hch
      have he : ch = ch2 := by simpa using hch.symm
      subst he
      rcases hmem with hm | ⟨l, hfl, hm⟩
      · exact digit_not_ws ch (hd2d ch hm)
      · exact digit_not_ws ch ((hf2 l hfl).2 ch hm)
    have hstrip := stripWS_eq_of_ends _ hhead hlast
    -- the coordinate pattern matches and yields the two values
    rcases hs : sep with _ | ⟨s0, sep'⟩
    · exact absurd hs hsep
    subst hs
    have hp1 := parseNumber_renderNum n1 (c1 :: d1') f1
      ((s0 :: sep') ++ renderNum n2 d2 f2) hd1 hd1d hf1 (by
        intro ch hch
        have he : ch = s0 := by simpa using hch.symm
        subst he
        have hs0 := hseps ch (List.mem_cons_self ch sep')
        exact ⟨sep_not_digit ch hs0, sep_ne_dot ch hs0⟩)
    rcases hd2' : d2 with _ | ⟨c2, d2''⟩
    · exact absurd hd2' hd2
    subst hd2'
    have hsepspan := span_append isSep (s0 :: sep') (renderNum n2 (c2 :: d2'') f2)
      (by
        intro ch hch
        rw [show (renderNum n2 (c2 :: d2'') f2).head? =
          (renderNum n2 (c2 :: d2'') f2 ++ []).head? by rw [List.append_nil],
          renderNum_append_head] at hch
        cases n2 with
        | true =>
          rw [show ch = '-' by simpa using hch.symm]
          decide
        | false =>
          rw [show ch = c2 by simpa using hch.symm]
          exact digit_not_sep c2 (hd2d c2 (List.mem_cons_self c2 d2''))) hseps
    have hp2 : parseNumber (renderNum n2 (c2 :: d2'') f2) =
        some (numValue n2 (c2 :: d2'') f2, []) := by
      rw [show renderNum n2 (c2 :: d2'') f2 =
        renderNum n2 (c2 :: d2'') f2 ++ [] by rw [List.append_nil]]
      exact parseNumber_renderNum n2 (c2 :: d2'') f2 [] hd2 hd2d hf2
        (by intro ch hch; cases hch)
    have hpattern : parseCoordPattern
        (renderNum n1 (c1 :: d1') f1 ++ ((s0 :: sep') ++ renderNum n2 (c2 :: d2'') f2)) =
        some (numValue n1 (c1 :: d1') f1, numValue n2 (c2 :: d2'') f2) := by
      simp only [parseCoordPattern, hp1, hsepspan.1, hsepspan.2,
        List.isEmpty_cons, Bool.false_eq_true, if_false, hp2,
        List.isEmpty_nil, if_true]
    simp only [resolve_location, hstrip, hpattern]
  · intro q
    unfold resolve_location
    cases h : parseCoordPattern (stripWS q) with
    | none => simp
    | some ab => simp

/-- Witness for C10: the query `999, 45` resolves to the out-of-range
latitude `999` as-is. -/
theorem resolve_location_coordinates_witness :
    resolve_location ['9', '9', '9', ',', ' ', '4', '5'] =
      LocationResult.coords 999 45 := by
  have h := (resolve_location_coordinates false false ['9', '9', '9'] ['4', '5']
    none none [',', ' ']
    (by simp) (by decide) (by simp) (by decide)
    (by intro l hl; cases hl) (by intro l hl; cases hl)
    (by simp) (by decide)).1
  have e1 : numValue false ['9', '9', '9'] none = 999 := by
    have hv : digitsVal ['9', '9', '9'] = 999 := by decide
    simp [numValue, hv]
  have e2 : numValue false ['4', '5'] none = 45 := by
    have hv : digitsVal ['4', '5'] = 45 := by decide
    simp [numValue, hv]
  rw [e1, e2] at h
  exact h

/-! ## Theorems: output ordering of the calculation stage -/

/-- The initial pass routes exactly the above-horizon stars, in catalog
order, into the constellation and background lists. -/
theorem firstPass_eq_filter (ids : List ℕ) (catalog : List CatStar) :
    firstPass ids catalog =
      (catalog.filter (fun s => decide (0 < s.alt) && decide (s.hip ∈ ids)),
       catalog.filter (fun s => decide (0 < s.alt) && !decide (s.hip ∈ ids))) := by
  induction catalog with
  | nil => rfl
  | cons s rest ih =>
    simp only [firstPass, ih, List.filter_cons]
    by_cases h1 : 0 < s.alt <;> by_cases h2 : s.hip ∈ ids <;> simp [h1, h2]

/-- The de-clutter output is a sublist of its candidate list. -/
theorem declutter_sublist (occ : List (ℚ × ℚ)) (cands : List CatStar) :
    (declutter occ cands).Sublist cands := by
  induction cands generalizing occ with
  | nil => simp [declutter]
  | cons c rest ih =>
    simp only [declutter]
    split
    · exact (ih occ).cons c
    · exact (ih _).cons₂ c

/-- **C5.** The calculation stage returns exactly the constellation stars in
catalog iteration order followed by the accepted background stars sorted
ascending by magnitude, each background star having passed the
`mag <= magnitude_limit` filter; and the star-glyph pass draws glyphs in the
order of this visible-star list (a sublist of it), fixing the z-order. -/
theorem calc_output_order (catalog : List CatStar)
    (cons : List (String × List (ℕ × ℕ))) (ml : ℚ) :
    calcVisibleStars catalog cons ml =
      (calcSplit catalog cons).1 ++ calcFinalBackground catalog cons ml ∧
    (calcSplit catalog cons).1 =
      catalog.filter
        (fun s => decide (0 < s.alt) && decide (s.hip ∈ catConstIds cons)) ∧
    List.Pairwise (fun a b => a.mag ≤ b.mag)
      (calcFinalBackground catalog cons ml) ∧
    (∀ s ∈ calcFinalBackground catalog cons ml,
      s.mag ≤ ml ∧ 0 < s.alt ∧ s.hip ∉ catConstIds cons) ∧
    ∀ c : Chart, (Chart.drawnStars c).Sublist c.visible_stars := by
  refine ⟨rfl, ?_, ?_, ?_, ?_⟩
  · rw [calcSplit, firstPass_eq_filter]
  · have hsorted : List.Pairwise (fun a b : CatStar => a.mag ≤ b.mag)
        (calcCandidatesSorted catalog cons ml) := by
      haveI ht : IsTotal CatStar (fun a b => a.mag ≤ b.mag) :=
        ⟨fun a b => le_total a.mag b.mag⟩
      haveI htr : IsTrans CatStar (fun a b => a.mag ≤ b.mag) :=
        ⟨fun a b c hab hbc => le_trans hab hbc⟩
      exact List.sorted_insertionSort _ _
    exact List.Pairwise.sublist (declutter_sublist _ _) hsorted
  · intro s hs
    have hs1 : s ∈ calcCandidatesSorted catalog cons ml :=
      (declutter_sublist _ _).subset hs
    have hs2 : s ∈ (calcSplit catalog cons).2.filter
        (fun s => decide (s.mag ≤ ml)) :=
      (List.perm_insertionSort _ _).mem_iff.mp hs1
    have hs3 := List.mem_filter.mp hs2
    have hsplit2 : (calcSplit catalog cons).2 = catalog.filter
        (fun s => decide (0 < s.alt) && !decide (s.hip ∈ catConstIds cons)) := by
      rw [calcSplit, firstPass_eq_filter]
    rw [hsplit2] at hs3
    have hcat := (List.mem_filter.mp hs3.1).2
    simp only [Bool.and_eq_true, Bool.not_eq_true', decide_eq_true_eq,
      decide_eq_false_iff_not] at hcat
    exact ⟨by simpa using hs3.2, hcat.1, hcat.2⟩
  · intro c
    exact List.filter_sublist _

/-- Witness for C5 on a two-star catalog: the accepted background star
satisfies the magnitude bound through the theorem. -/
theorem calc_output_order_witness :
    (⟨3, 1, 1, 1, 1⟩ : CatStar).mag ≤ 6 ∧ (0 : ℚ) < (⟨3, 1, 1, 1, 1⟩ : CatStar).alt ∧
      (⟨3, 1, 1, 1, 1⟩ : CatStar).hip ∉ catConstIds [("X", [(1, 1)])] := by
  have h := (calc_output_order [⟨1, 5, 1, 0, 0⟩, ⟨3, 1, 1, 1, 1⟩]
    [("X", [(1, 1)])] 6).2.2.2.1
  exact h ⟨3, 1, 1, 1, 1⟩ (by
    norm_num [calcFinalBackground, calcCandidatesSorted, calcSplit, firstPass,
      catConstIds, List.insertionSort, List.orderedInsert, declutter, distSq,
      minDistSq])

/-! ## Theorems: the connectivity-aware clipper -/

/-- Membership in the emitted polylines of the clipper loop: exactly the
fully-in-bounds sampled polylines of lines whose two endpoints are present. -/
theorem mem_drawConsAux_fst (c : Chart) (L : List (ℕ × ℕ)) (pts : List (ℝ × ℝ)) :
    pts ∈ (Chart.drawConsAux c L).1 ↔
      ∃ ab, ab ∈ L ∧ ∃ s e, c.starHipMap ab.1 = some s ∧
        c.starHipMap ab.2 = some e ∧ pts = c.linePts s e ∧ c.polylineFits pts := by
  induction L with
  | nil => simp [Chart.drawConsAux]
  | cons ab rest ih =>
    rcases h1 : c.starHipMap ab.1 with _ | s
    · have hred : Chart.drawConsAux c (ab :: rest) = Chart.drawConsAux c rest := by
        simp [Chart.drawConsAux, h1]
      rw [hred, ih]
      constructor
      · rintro ⟨ab', hmem, hrest⟩
        exact ⟨ab', List.mem_cons_of_mem _ hmem, hrest⟩
      · rintro ⟨ab', hmem, s', e', hs', he', hpts, hfits⟩
        rcases List.mem_cons.mp hmem with rfl | hmem'
        · rw [h1] at hs'
          cases hs'
        · exact ⟨ab', hmem', s', e', hs', he', hpts, hfits⟩
    · rcases h2 : c.starHipMap ab.2 with _ | e
      · have hred : Chart.drawConsAux c (ab :: rest) = Chart.drawConsAux c rest := by
          simp [Chart.drawConsAux, h1, h2]
        rw [hred, ih]
        constructor
        · rintro ⟨ab', hmem, hrest⟩
          exact ⟨ab', List.mem_cons_of_mem _ hmem, hrest⟩
        · rintro ⟨ab', hmem, s', e', hs', he', hpts, hfits⟩
          rcases List.mem_cons.mp hmem with rfl | hmem'
          · rw [h2] at he'
            cases he'
          · exact ⟨ab', hmem', s', e', hs', he', hpts, hfits⟩
      · by_cases hf : c.polylineFits (c.linePts s e)
        · have hred : Chart.drawConsAux c (ab :: rest) =
              (c.linePts s e :: (Chart.drawConsAux c rest).1,
               ab.1 :: ab.2 :: (Chart.drawConsAux c rest).2) := by
            simp [Chart.drawConsAux, h1, h2, hf]
          rw [hred]
          constructor
          · intro h
            rcases List.mem_cons.mp h with rfl | hm
            · exact ⟨ab, List.mem_cons_self _ _, s, e, h1, h2, rfl, hf⟩
            · obtain ⟨ab', hmem, s', e', hs', he', hpts, hfits⟩ := ih.mp hm
              exact ⟨ab', List.mem_cons_of_mem _ hmem, s', e', hs', he', hpts, hfits⟩
          · rintro ⟨ab', hmem, s', e', hs', he', hpts, hfits⟩
            rcases List.mem_cons.mp hmem with rfl | hmem'
            · rw [h1] at hs'
              rw [h2] at he'
              injection hs' with hse
              injection he' with hee
              subst hse
              subst hee
              exact List.mem_cons.mpr (Or.inl hpts)
            · exact List.mem_cons.mpr
                (Or.inr (ih.mpr ⟨ab', hmem', s', e', hs', he', hpts, hfits⟩))
        · have hred : Chart.drawConsAux c (ab :: rest) = Chart.drawConsAux c rest := by
            simp [Chart.drawConsAux, h1, h2, hf]
          rw [hred, ih]
          constructor
          · rintro ⟨ab', hmem, hrest⟩
            exact ⟨ab', List.mem_cons_of_mem _ hmem, hrest⟩
          · rintro ⟨ab', hmem, s', e', hs', he', hpts, hfits⟩
            rcases List.mem_cons.mp hmem with rfl | hmem'
            · rw [h1] at hs'
              rw [h2] at he'
              injection hs' with hse
              injection he' with hee
              subst hse
              subst hee
              exact absurd (hpts ▸ hfits) hf
            · exact ⟨ab', hmem', s', e', hs', he', hpts, hfits⟩

/-- Membership in the visible-via-line id set of the clipper loop: exactly
the endpoints of accepted lines. -/
theorem mem_drawConsAux_snd (c : Chart) (L : List (ℕ × ℕ)) (hip : ℕ) :
    hip ∈ (Chart.drawConsAux c L).2 ↔
      ∃ ab, ab ∈ L ∧ ∃ s e, c.starHipMap ab.1 = some s ∧
        c.starHipMap ab.2 = some e ∧ c.polylineFits (c.linePts s e) ∧
        (hip = ab.1 ∨ hip = ab.2) := by
  induction L with
  | nil => simp [Chart.drawConsAux]
  | cons ab rest ih =>
    rcases h1 : c.starHipMap ab.1 with _ | s
    · have hred : Chart.drawConsAux c (ab :: rest) = Chart.drawConsAux c rest := by
        simp [Chart.drawConsAux, h1]
      rw [hred, ih]
      constructor
      · rintro ⟨ab', hmem, hrest⟩
        exact ⟨ab', List.mem_cons_of_mem _ hmem, hrest⟩
      · rintro ⟨ab', hmem, s', e', hs', he', hfits, hor⟩
        rcases List.mem_cons.mp hmem with rfl | hmem'
        · rw [h1] at hs'
          cases hs'
        · exact ⟨ab', hmem', s', e', hs', he', hfits, hor⟩
    · rcases h2 : c.starHipMap ab.2 with _ | e
      · have hred : Chart.drawConsAux c (ab :: rest) = Chart.drawConsAux c rest := by
          simp [Chart.drawConsAux, h1, h2]
        rw [hred, ih]
        constructor
        · rintro ⟨ab', hmem, hrest⟩
          exact ⟨ab', List.mem_cons_of_mem _ hmem, hrest⟩
        · rintro ⟨ab', hmem, s', e', hs', he', hfits, hor⟩
          rcases List.mem_cons.mp hmem with rfl | hmem'
          · rw [h2] at he'
            cases he'
          · exact ⟨ab', hmem', s', e', hs', he', hfits, hor⟩
      · by_cases hf : c.polylineFits (c.linePts s e)
        · have hred : Chart.drawConsAux c (ab :: rest) =
              (c.linePts s e :: (Chart.drawConsAux c rest).1,
               ab.1 :: ab.2 :: (Chart.drawConsAux c rest).2) := by
            simp [Chart.drawConsAux, h1, h2, hf]
          rw [hred]
          constructor
          · intro h
            rcases List.mem_cons.mp h with rfl | h'
            · exact ⟨ab, List.mem_cons_self _ _, s, e, h1, h2, hf, Or.inl rfl⟩
            rcases List.mem_cons.mp h' with rfl | h''
            · exact ⟨ab, List.mem_cons_self _ _, s, e, h1, h2, hf, Or.inr rfl⟩
            · obtain ⟨ab', hmem, s', e', hs', he', hfits, hor⟩ := ih.mp h''
              exact ⟨ab', List.mem_cons_of_mem _ hmem, s', e', hs', he', hfits, hor⟩
          · rintro ⟨ab', hmem, s', e', hs', he', hfits, hor⟩
            rcases List.mem_cons.mp hmem with rfl | hmem'
            · rcases hor with rfl | rfl
              · exact List.mem_cons_self _ _
              · exact List.mem_cons.mpr (Or.inr (List.mem_cons_self _ _))
            · exact List.mem_cons.mpr (Or.inr (List.mem_cons.mpr (Or.inr
                (ih.mpr ⟨ab', hmem', s', e', hs', he', hfits, hor⟩))))
        · have hred : Chart.drawConsAux c (ab :: rest) = Chart.drawConsAux c rest := by
            simp [Chart.drawConsAux, h1, h2, hf]
          rw [hred, ih]
          constructor
          · rintro ⟨ab', hmem, hrest⟩
            exact ⟨ab', List.mem_cons_of_mem _ hmem, hrest⟩
          · rintro ⟨ab', hmem, s', e', hs', he', hfits, hor⟩
            rcases List.mem_cons.mp hmem with rfl | hmem'
            · rw [h1] at hs'
              rw [h2] at he'
              injection hs' with hse
              injection he' with hee
              subst hse
              subst hee
              exact absurd hfits hf
            · exact ⟨ab', hmem', s', e', hs', he', hfits, hor⟩

/-- **C2.** A constellation line with both endpoint stars present is sampled
at 13 points, each distorted and mapped to canvas; the polyline is emitted
exactly when all 13 canvas points are within bounds (no bounds accepts
everything), and an id is in the visible-via-line set exactly when it is an
endpoint of some accepted line; lines with a missing endpoint contribute
nothing. -/
theorem draw_constellations_spec (c : Chart) :
    (∀ pts, pts ∈ c.drawnPolylines ↔
      ∃ ab, ab ∈ c.allLines ∧ ∃ s e, c.starHipMap ab.1 = some s ∧
        c.starHipMap ab.2 = some e ∧ pts = c.linePts s e ∧
        ∀ p ∈ pts, c.config.pointInBounds p) ∧
    (∀ hip, hip ∈ c.visibleViaLine ↔
      ∃ ab, ab ∈ c.allLines ∧ ∃ s e, c.starHipMap ab.1 = some s ∧
        c.starHipMap ab.2 = some e ∧
        (∀ p ∈ c.linePts s e, c.config.pointInBounds p) ∧
        (hip = ab.1 ∨ hip = ab.2)) ∧
    (∀ s e, (c.linePts s e).length = 13) := by
  refine ⟨fun pts => ?_, fun hip => ?_, fun s e => ?_⟩
  · exact mem_drawConsAux_fst c c.allLines pts
  · exact mem_drawConsAux_snd c c.allLines hip
  · unfold Chart.linePts
    rw [List.length_map, List.length_range]

/-! ## Theorems: star-glyph emission -/

/-- With pairwise-distinct hips, `find?` by hip recovers the member itself. -/
theorem find?_hip_eq (l : List StarData) (hnd : (l.map StarData.hip).Nodup)
    (s : StarData) (hs : s ∈ l) :
    l.find? (fun t => t.hip == s.hip) = some s := by
  induction l with
  | nil => cases hs
  | cons a t ih =>
    rw [List.map_cons] at hnd
    have hnd' := List.nodup_cons.mp hnd
    by_cases ha : a.hip = s.hip
    · have hbeq : (a.hip == s.hip) = true := by simp [ha]
      rcases List.mem_cons.mp hs with rfl | hst
      · simp [List.find?_cons, hbeq]
      · exact absurd (ha ▸ List.mem_map_of_mem StarData.hip hst) hnd'.1
    · have hbeq : (a.hip == s.hip) = false := by simp [ha]
      have hst : s ∈ t := by
        rcases List.mem_cons.mp hs with rfl | hst
        · exact absurd rfl ha
        · exact hst
      simp only [List.find?_cons, hbeq]
      exact ih hnd'.2 hst

/-- With pairwise-distinct hips, the star map sends a visible star's hip to
that star. -/
theorem starHipMap_self (c : Chart)
    (hnd : (c.visible_stars.map StarData.hip).Nodup)
    (s : StarData) (hs : s ∈ c.visible_stars) :
    c.starHipMap s.hip = some s := by
  unfold Chart.starHipMap
  refine find?_hip_eq _ ?_ s (List.mem_reverse.mpr hs)
  rw [List.map_reverse]
  exact List.nodup_reverse.mpr hnd

/-- The first sampled point of a line is the start star's own canvas
position as drawn by the star pass. -/
theorem starCanvasPos_mem_linePts_fst (c : Chart) (s e : StarData) :
    c.starCanvasPos s ∈ c.linePts s e := by
  unfold Chart.linePts
  refine List.mem_map.mpr ⟨0, by simp, ?_⟩
  norm_num [Chart.starCanvasPos]

/-- The last sampled point of a line is the end star's own canvas position
as drawn by the star pass. -/
theorem starCanvasPos_mem_linePts_snd (c : Chart) (s e : StarData) :
    c.starCanvasPos e ∈ c.linePts s e := by
  unfold Chart.linePts
  refine List.mem_map.mpr ⟨12, by simp, ?_⟩
  have ha : s.x * c.scale_factor +
      (e.x * c.scale_factor - s.x * c.scale_factor) * (((12 : ℕ) : ℝ) / 12) =
      e.x * c.scale_factor := by
    push_cast
    ring
  have hb : -s.y * c.scale_factor +
      (-e.y * c.scale_factor - -s.y * c.scale_factor) * (((12 : ℕ) : ℝ) / 12) =
      -e.y * c.scale_factor := by
    push_cast
    ring
  show c.toCanvas (c.config.distort _ _) = c.starCanvasPos e
  rw [ha, hb]
  rfl

/-- A star whose hip entered the visible-via-line set has its own canvas
position within bounds: the accepted line's first or last sampled point *is*
that canvas position. -/
theorem visibleViaLine_pos_inBounds (c : Chart)
    (hnd : (c.visible_stars.map StarData.hip).Nodup)
    (s : StarData) (hs : s ∈ c.visible_stars)
    (hv : s.hip ∈ c.visibleViaLine) :
    c.config.pointInBounds (c.starCanvasPos s) := by
  obtain ⟨ab, _, s', e', hs', he', hfits, hor⟩ :=
    (mem_drawConsAux_snd c c.allLines s.hip).mp hv
  have hmap := starHipMap_self c hnd s hs
  rcases hor with h1 | h2
  · rw [← h1] at hs'
    rw [hmap] at hs'
    injection hs' with hse
    subst hse
    exact hfits _ (starCanvasPos_mem_linePts_fst c s e')
  · rw [← h2] at he'
    rw [hmap] at he'
    injection he' with hee
    subst hee
    exact hfits _ (starCanvasPos_mem_linePts_snd c s' s)

/-- **C1.** A constellation star in the visible-star list gets a glyph if
and only if its hip is in the visible-via-line set: the star pass's extra
in-bounds test cannot reject it, because any accepted incident line already
certified the star's own canvas position in bounds. -/
theorem constellation_star_drawn_iff (c : Chart) (s : StarData)
    (hs : s ∈ c.visible_stars)
    (hnd : (c.visible_stars.map StarData.hip).Nodup)
    (hc : s.hip ∈ c.constellationStarIds) :
    c.starDrawn s ↔ s.hip ∈ c.visibleViaLine := by
  unfold Chart.starDrawn
  rw [if_pos hc]
  constructor
  · exact fun h => h.1
  · intro hv
    exact ⟨hv, Or.inr (visibleViaLine_pos_inBounds c hnd s hs hv)⟩

/-! ## Concrete evaluation of the example chart -/

/-- The example chart's configuration is the default one (its field of view
is positive, so the correction is the identity). -/
theorem chartE_config : chartE.config = cfgE := by
  show correctedConfig cfgE = cfgE
  unfold correctedConfig
  rw [if_neg]
  norm_num [cfgE]

/-- No bounds are configured on the example chart, so every point is in
bounds. -/
theorem chartE_inBounds (p : ℝ × ℝ) : chartE.config.pointInBounds p := by
  rw [chartE_config]
  exact trivial

/-- Every polyline fits the (absent) bounds of the example chart. -/
theorem chartE_fits (pts : List (ℝ × ℝ)) : chartE.polylineFits pts :=
  fun p _ => chartE_inBounds p

/-- Star map lookup of hip 1 on the example chart. -/
theorem chartE_map1 : chartE.starHipMap 1 = some starA := by
  show Chart.starHipMap chartE 1 = some starA
  unfold Chart.starHipMap chartE mkChart
  simp [starA, starB, List.find?_cons]

/-- Star map lookup of hip 2 on the example chart. -/
theorem chartE_map2 : chartE.starHipMap 2 = some starB := by
  show Chart.starHipMap chartE 2 = some starB
  unfold Chart.starHipMap chartE mkChart
  simp [starA, starB, List.find?_cons]

/-- The example chart has a single constellation line. -/
theorem chartE_allLines : chartE.allLines = [(1, 2)] := by
  unfold Chart.allLines chartE mkChart
  rfl

/-- With no bounds, the single line is accepted and both endpoints enter the
visible-via-line set. -/
theorem chartE_vvl : chartE.visibleViaLine = [1, 2] := by
  unfold Chart.visibleViaLine Chart.drawConstellations
  rw [chartE_allLines]
  simp [Chart.drawConsAux, chartE_map1, chartE_map2, chartE_fits]

/-- Witness for C1: the constellation star `starA` of the example chart is
drawn, via the theorem and its hip's membership in the visible-via-line
set. -/
theorem constellation_star_drawn_iff_witness : chartE.starDrawn starA := by
  have hmem : starA ∈ chartE.visible_stars := by
    show starA ∈ [starA, starB]
    exact List.mem_cons_self _ _
  have hnd : (chartE.visible_stars.map StarData.hip).Nodup := by
    show ([starA, starB].map StarData.hip).Nodup
    simp [starA, starB]
  have hc : starA.hip ∈ chartE.constellationStarIds := by
    unfold Chart.constellationStarIds
    rw [chartE_allLines]
    simp [starA]
  exact (constellation_star_drawn_iff chartE starA hmem hnd hc).mpr
    (by rw [chartE_vvl]; simp [starA])

/-! ## Theorems: the label pass -/

/-- `scale_factor` of the example chart. -/
theorem chartE_scale : chartE.scale_factor = 1 := by
  unfold Chart.scale_factor
  rw [chartE_config]
  norm_num [cfgE]

/-- `radius` of the example chart. -/
theorem chartE_radius : chartE.radius = 498 := by
  unfold Chart.radius
  rw [chartE_config]
  norm_num [cfgE]

/-- `center_x` of the example chart. -/
theorem chartE_cx : chartE.center_x = 500 := by
  unfold Chart.center_x
  rw [chartE_config]
  norm_num [cfgE]

/-- `center_y` of the example chart. -/
theorem chartE_cy : chartE.center_y = 500 := by
  unfold Chart.center_y
  rw [chartE_config]
  norm_num [cfgE]

/-- Both constellation stars fail the label pass's radius test (their
undistorted canvas positions are far outside the chart circle), so the
label-input set of the source is empty. -/
theorem chartE_labelPositions : chartE.labelPositions [(1, 2)] = [] := by
  unfold Chart.labelPositions
  rw [show (([((1 : ℕ), (2 : ℕ))].flatMap (fun ab => [ab.1, ab.2])).dedup) = [1, 2]
    by decide]
  norm_num [List.filterMap_cons, chartE_map1, chartE_map2, chartE_scale,
    chartE_radius, chartE_cx, chartE_cy, starA, starB]

/-- Consequently no label is emitted for the example chart. -/
theorem chartE_drawLabels : chartE.drawLabels = [] := by
  unfold Chart.drawLabels
  rw [show chartE.config.show_labels = true by rw [chartE_config]; rfl]
  rw [show chartE.constellations = [("T", [(1, 2)])] from rfl]
  simp [Chart.labelFor, chartE_labelPositions]

/-- Counterexample to C3 as stated: on the example chart both member stars
are in the visible-via-line set (their line is accepted, there being no
bounds), so the claim's label-input set is nonempty and a label would be
required; the source additionally applies a radius test, its label-input set
is empty, and no label is emitted. -/
theorem labels_radius_counterexample :
    chartE.drawLabels = [] ∧ claimedLabelPositions chartE [(1, 2)] ≠ [] := by
  refine ⟨chartE_drawLabels, ?_⟩
  unfold claimedLabelPositions
  rw [show (([((1 : ℕ), (2 : ℕ))].flatMap (fun ab => [ab.1, ab.2])).dedup) = [1, 2]
    by decide]
  simp [List.filterMap_cons, chartE_map1, chartE_map2, chartE_vvl]

open scoped Classical in
/-- **C3 (amended).** The label-input positions of a constellation are
exactly the undistorted canvas positions of member stars that are present in
the star map, lie within the chart circle (radius test), and are in the
visible-via-line set; the per-constellation label is absent for an empty
line list or an empty (deduplicated) position set, and otherwise is the name
anchored at the arithmetic mean of the deduplicated positions, with no
bounds test on that mean; the label pass emits these per-entry labels when
labels are enabled. -/
theorem labels_spec (c : Chart) (nm : String) (lines : List (ℕ × ℕ)) :
    (∀ p, p ∈ c.labelPositions lines ↔
      ∃ hip, (∃ ab ∈ lines, hip = ab.1 ∨ hip = ab.2) ∧
        ∃ s, c.starHipMap hip = some s ∧
          p = (s.x * c.scale_factor * c.radius + c.center_x,
               -s.y * c.scale_factor * c.radius + c.center_y) ∧
          (p.1 - c.center_x) ^ 2 + (p.2 - c.center_y) ^ 2 ≤ c.radius ^ 2 ∧
          hip ∈ c.visibleViaLine) ∧
    (c.labelFor (nm, lines) =
      if lines = [] then none
      else if (c.labelPositions lines).dedup = [] then none
      else some (nm,
        (((c.labelPositions lines).dedup.map Prod.fst).sum /
            (((c.labelPositions lines).dedup.length : ℕ) : ℝ),
         ((c.labelPositions lines).dedup.map Prod.snd).sum /
            (((c.labelPositions lines).dedup.length : ℕ) : ℝ)))) ∧
    c.drawLabels =
      (if c.config.show_labels then c.constellations.filterMap c.labelFor
       else []) := by
  refine ⟨fun p => ?_, rfl, rfl⟩
  unfold Chart.labelPositions
  rw [List.mem_filterMap]
  constructor
  · rintro ⟨hip, hmem, hf⟩
    rw [List.mem_dedup, List.mem_flatMap] at hmem
    obtain ⟨ab, hab, hh⟩ := hmem
    rcases hmap : c.starHipMap hip with _ | s
    · rw [hmap] at hf
      simp at hf
    · rw [hmap] at hf
      simp only [] at hf
      by_cases hcond :
          (s.x * c.scale_factor * c.radius + c.center_x - c.center_x) ^ 2 +
            (-s.y * c.scale_factor * c.radius + c.center_y - c.center_y) ^ 2 ≤
              c.radius ^ 2 ∧ hip ∈ c.visibleViaLine
      · rw [if_pos hcond] at hf
        injection hf with hp
        refine ⟨hip, ⟨ab, hab, by simpa using hh⟩, s, hmap, hp.symm, ?_, hcond.2⟩
        rw [← hp]
        exact hcond.1
      · rw [if_neg hcond] at hf
        cases hf
  · rintro ⟨hip, ⟨ab, hab, hor⟩, s, hmap, hp, hdist, hvvl⟩
    refine ⟨hip, ?_, ?_⟩
    · rw [List.mem_dedup, List.mem_flatMap]
      exact ⟨ab, hab, by rcases hor with rfl | rfl <;> simp⟩
    · rw [hmap]
      simp only []
      rw [if_pos ⟨by rw [hp] at hdist; simpa using hdist, hvvl⟩, hp]

end Starforge
